import Mathlib

set_option maxRecDepth 4000

/-!
Shallow embedding of `server.py` (Flask endpoint `/fetch_data`).

The program fetches a JSON list of financial records from an upstream API,
filters it by six optional query-parameter bounds, sorts it by an optional
sort key, and returns it as JSON.  We model:

* a record as a structure carrying the three fields the transform reads
  (`date`, `revenue`, `netIncome`) plus the untouched remainder of the JSON
  object (`other`); numeric JSON values are modelled as `Int` (the claims
  under study depend only on ordering and on zero-testing, never on
  float-specific behaviour);
* a Python optional numeric value as `Option Int`, with Python truthiness
  (`None` and `0` are falsy) as `truthy`;
* a Flask query parameter as `QueryParam` (absent, malformed, or a parsed
  value): `request.args.get(name, type=t)` returns the default (`None`)
  when the raw value fails to convert, which `QueryParam.get` mirrors;
* the upstream fetch outcome as `Except String (List FinancialRecord)`:
  `requests` raising (network error / `raise_for_status` / JSON parse
  failure) is the `.error` case, caught by the handler's `try/except`;
* Python's `sorted(key=k, reverse=True)` as `sortDesc k`, an insertion
  sort that is stable and descending, matching CPython's stable sort with
  reversed comparisons;
* a second embedding (`JsonRecord`, suffix `J`) in which the three fields
  are optional and field access `item["f"]` is the fallible `getField`,
  used to study behaviour on records lacking a field (a missing key raises
  `KeyError` in Python, modelled as `Except.error "KeyError"`).
-/

/-- A financial record: the three fields the transform reads, plus all other
provider-supplied key/value pairs, carried through untouched. -/
structure FinancialRecord where
  date : Int
  revenue : Int
  netIncome : Int
  other : List (String × Int)
deriving DecidableEq, Repr

/-- Python truthiness of an optional numeric parameter: `None` and `0` are
falsy, every other number is truthy. -/
def truthy : Option Int → Bool
  | none => false
  | some v => v != 0

/-- Models `if bound and field < bound: continue` — the guard of one
lower-bound filter clause of `filter_data`. -/
def continueLB (b : Option Int) (v : Int) : Bool :=
  match b with
  | none => false
  | some c => c != 0 && decide (v < c)

/-- Models `if bound and field > bound: continue` — the guard of one
upper-bound filter clause of `filter_data`. -/
def continueUB (b : Option Int) (v : Int) : Bool :=
  match b with
  | none => false
  | some c => c != 0 && decide (v > c)

/-- The `continue`-chain of the loop body of `filter_data` in `server.py`:
an item is appended exactly when none of the six guards fires, in the
source's order (date lower, date upper, revenue lower, revenue upper,
netIncome lower, netIncome upper). -/
def keepItem (start_date end_date min_revenue max_revenue min_net_income
    max_net_income : Option Int) (item : FinancialRecord) : Bool :=
  if continueLB start_date item.date then false
  else if continueUB end_date item.date then false
  else if continueLB min_revenue item.revenue then false
  else if continueUB max_revenue item.revenue then false
  else if continueLB min_net_income item.netIncome then false
  else if continueUB max_net_income item.netIncome then false
  else true

/-- `filter_data` of `server.py`: the loop accumulating `filtered`, with
`continue` skipping an item whenever a present, non-zero bound is violated. -/
def filter_data (data : List FinancialRecord)
    (start_date end_date min_revenue max_revenue min_net_income
      max_net_income : Option Int) : List FinancialRecord :=
  match data with
  | [] => []
  | item :: rest =>
    if keepItem start_date end_date min_revenue max_revenue min_net_income
        max_net_income item then
      item :: filter_data rest start_date end_date min_revenue max_revenue
        min_net_income max_net_income
    else
      filter_data rest start_date end_date min_revenue max_revenue
        min_net_income max_net_income

/-- One insertion step of the stable descending sort: `x` is placed before
the first element whose key is `≤` its own, so an element inserted from the
left of the original list precedes every tied element to its right. -/
def insertDesc {α : Type} (key : α → Int) (x : α) : List α → List α
  | [] => [x]
  | y :: ys => if key y ≤ key x then x :: y :: ys else y :: insertDesc key x ys

/-- Model of Python's `sorted(l, key=key, reverse=True)`: the unique stable
descending sort by `key`, realised as an insertion sort. -/
def sortDesc {α : Type} (key : α → Int) : List α → List α
  | [] => []
  | x :: xs => insertDesc key x (sortDesc key xs)

/-- The sort dispatch of the handler: `sortBy == "date" / "revenue" /
"netIncome"` selects a stable descending sort on that field, any other value
leaves the filtered list untouched. -/
def sort_phase (sort_by : String) (l : List FinancialRecord) :
    List FinancialRecord :=
  if sort_by = "date" then sortDesc (fun x => x.date) l
  else if sort_by = "revenue" then sortDesc (fun x => x.revenue) l
  else if sort_by = "netIncome" then sortDesc (fun x => x.netIncome) l
  else l

/-- The whole transform of the handler's success path: filter, then sort. -/
def transform (start_date end_date min_revenue max_revenue min_net_income
    max_net_income : Option Int) (sort_by : String)
    (data : List FinancialRecord) : List FinancialRecord :=
  sort_phase sort_by (filter_data data start_date end_date min_revenue
    max_revenue min_net_income max_net_income)

/-- A numeric query parameter as Flask sees it: absent, present but not
convertible to the requested numeric type, or successfully converted. -/
inductive QueryParam where
  | absent
  | malformed (raw : String)
  | given (v : Int)
deriving DecidableEq, Repr

/-- `request.args.get(name, type=...)`: Flask returns the default (`None`)
both when the parameter is absent and when conversion of the raw string
raises, so a malformed value is silently treated as absent. -/
def QueryParam.get : QueryParam → Option Int
  | .absent => none
  | .malformed _ => none
  | .given v => some v

/-- The JSON body of a `/fetch_data` response: either the record list or the
error object `{"error": msg}`. -/
inductive FetchResponse where
  | ok (records : List FinancialRecord)
  | err (msg : String)
deriving DecidableEq, Repr

/-- The handler `fetch_data` of `server.py`: on upstream failure it returns
status 500 with the error message; otherwise it reads the query parameters
(`sortBy` defaulting to `"date"`), filters, sorts, and returns status 200
with the resulting list. -/
def fetch_data (upstream : Except String (List FinancialRecord))
    (startDate endDate minRevenue maxRevenue minNetIncome
      maxNetIncome : QueryParam) (sortBy : Option String) :
    Nat × FetchResponse :=
  match upstream with
  | .error e => (500, .err e)
  | .ok data =>
    let sort_by := sortBy.getD "date"
    let filtered := filter_data data startDate.get endDate.get minRevenue.get
      maxRevenue.get minNetIncome.get maxNetIncome.get
    (200, .ok (sort_phase sort_by filtered))

/-- Spec-side lower bound check: a present, non-zero lower bound `c` requires
`c ≤ v`; an absent or zero bound imposes nothing. -/
def inLB (b : Option Int) (v : Int) : Bool :=
  match b with
  | none => true
  | some c => c == 0 || decide (c ≤ v)

/-- Spec-side upper bound check: a present, non-zero upper bound `c` requires
`v ≤ c`; an absent or zero bound imposes nothing. -/
def inUB (b : Option Int) (v : Int) : Bool :=
  match b with
  | none => true
  | some c => c == 0 || decide (v ≤ c)

/-- The spec's characterisation of retention: the conjunction of the six
inclusive bound checks, each enforced only when present and non-zero. -/
def satisfiesBounds (start_date end_date min_revenue max_revenue
    min_net_income max_net_income : Option Int) (x : FinancialRecord) : Bool :=
  inLB start_date x.date && inUB end_date x.date &&
  inLB min_revenue x.revenue && inUB max_revenue x.revenue &&
  inLB min_net_income x.netIncome && inUB max_net_income x.netIncome

/-- Sample record used in concrete instances. -/
def rec2023 : FinancialRecord := ⟨2023, 100, 10, []⟩

/-- Sample record used in concrete instances. -/
def rec2022 : FinancialRecord := ⟨2022, 200, 20, []⟩

lemma filter_data_eq_filter (data : List FinancialRecord)
    (s e mr xr mn xn : Option Int) :
    filter_data data s e mr xr mn xn =
      data.filter (keepItem s e mr xr mn xn) := by
  induction data with
  | nil => rfl
  | cons x rest ih =>
    simp only [filter_data, List.filter]
    cases h : keepItem s e mr xr mn xn x <;> simp [h, ih]

lemma continueLB_eq_not_inLB (b : Option Int) (v : Int) :
    continueLB b v = !(inLB b v) := by
  cases b with
  | none => rfl
  | some c =>
    simp only [continueLB, inLB]
    rw [Bool.eq_iff_iff]
    simp only [Bool.and_eq_true, Bool.not_eq_true', Bool.or_eq_false_iff,
      bne_iff_ne, Ne, beq_iff_eq, beq_eq_false_iff_ne, decide_eq_true_eq,
      decide_eq_false_iff_not]
    omega

lemma continueUB_eq_not_inUB (b : Option Int) (v : Int) :
    continueUB b v = !(inUB b v) := by
  cases b with
  | none => rfl
  | some c =>
    simp only [continueUB, inUB]
    rw [Bool.eq_iff_iff]
    simp only [Bool.and_eq_true, Bool.not_eq_true', Bool.or_eq_false_iff,
      bne_iff_ne, Ne, beq_iff_eq, beq_eq_false_iff_ne, decide_eq_true_eq,
      decide_eq_false_iff_not]
    omega

lemma keepItem_eq_satisfiesBounds (s e mr xr mn xn : Option Int)
    (x : FinancialRecord) :
    keepItem s e mr xr mn xn x = satisfiesBounds s e mr xr mn xn x := by
  simp only [keepItem, satisfiesBounds, continueLB_eq_not_inLB,
    continueUB_eq_not_inUB]
  cases inLB s x.date <;> cases inUB e x.date <;>
    cases inLB mr x.revenue <;> cases inUB xr x.revenue <;>
    cases inLB mn x.netIncome <;> cases inUB xn x.netIncome <;> simp

lemma insertDesc_perm {α : Type} (key : α → Int) (x : α) (l : List α) :
    (insertDesc key x l).Perm (x :: l) := by
  induction l with
  | nil => exact List.Perm.refl _
  | cons y ys ih =>
    simp only [insertDesc]
    by_cases h : key y ≤ key x
    · simp [h]
    · simp only [h, if_false]
      exact (ih.cons y).trans (List.Perm.swap x y ys)

lemma sortDesc_perm {α : Type} (key : α → Int) (l : List α) :
    (sortDesc key l).Perm l := by
  induction l with
  | nil => exact List.Perm.refl _
  | cons x xs ih =>
    exact (insertDesc_perm key x (sortDesc key xs)).trans (ih.cons x)

lemma mem_insertDesc {α : Type} (key : α → Int) (x a : α) (l : List α) :
    a ∈ insertDesc key x l ↔ a ∈ x :: l :=
  (insertDesc_perm key x l).mem_iff

lemma insertDesc_sorted {α : Type} (key : α → Int) (x : α) (l : List α)
    (h : l.Sorted (fun a b => key b ≤ key a)) :
    (insertDesc key x l).Sorted (fun a b => key b ≤ key a) := by
  induction l with
  | nil => simp [insertDesc]
  | cons y ys ih =>
    rw [List.sorted_cons] at h
    obtain ⟨hy, hys⟩ := h
    simp only [insertDesc]
    by_cases hxy : key y ≤ key x
    · rw [if_pos hxy, List.sorted_cons]
      constructor
      · intro b hb
        rcases List.mem_cons.1 hb with hb | hb
        · subst hb; exact hxy
        · exact le_trans (hy b hb) hxy
      · rw [List.sorted_cons]; exact ⟨hy, hys⟩
    · rw [if_neg hxy, List.sorted_cons]
      constructor
      · intro b hb
        rcases List.mem_cons.1 ((mem_insertDesc key x b ys).1 hb) with hb | hb
        · subst hb; exact le_of_lt (lt_of_not_le hxy)
        · exact hy b hb
      · exact ih hys

lemma sortDesc_sorted {α : Type} (key : α → Int) (l : List α) :
    (sortDesc key l).Sorted (fun a b => key b ≤ key a) := by
  induction l with
  | nil => simp [sortDesc]
  | cons x xs ih => exact insertDesc_sorted key x (sortDesc key xs) ih

lemma insertDesc_filter_key {α : Type} (key : α → Int) (x : α) (l : List α)
    (v : Int) :
    (insertDesc key x l).filter (fun a => key a == v) =
      if key x == v then x :: l.filter (fun a => key a == v)
      else l.filter (fun a => key a == v) := by
  induction l with
  | nil =>
    simp only [insertDesc, List.filter_cons, List.filter_nil]
  | cons y ys ih =>
    simp only [insertDesc]
    by_cases hxy : key y ≤ key x
    · rw [if_pos hxy, List.filter_cons]
    · rw [if_neg hxy, List.filter_cons, List.filter_cons, ih]
      by_cases hx : (key x == v) = true
      · have hxv : key x = v := by simpa using hx
        have hyv : ¬((key y == v) = true) := by
          simp only [beq_iff_eq]
          intro hy
          exact hxy (le_of_eq (hy.trans hxv.symm))
        simp [hx, hyv]
      · by_cases hy : (key y == v) = true <;> simp [hx, hy]

lemma sortDesc_stable {α : Type} (key : α → Int) (l : List α) (v : Int) :
    (sortDesc key l).filter (fun a => key a == v) =
      l.filter (fun a => key a == v) := by
  induction l with
  | nil => rfl
  | cons x xs ih =>
    simp only [sortDesc]
    rw [insertDesc_filter_key, List.filter_cons]
    by_cases hx : (key x == v) = true <;> simp [hx, ih]

lemma insertDesc_of_head_le {α : Type} (key : α → Int) (x : α) (l : List α)
    (h : ∀ b ∈ l, key b ≤ key x) : insertDesc key x l = x :: l := by
  cases l with
  | nil => rfl
  | cons y ys => simp [insertDesc, h y (by simp)]

lemma sortDesc_of_sorted {α : Type} (key : α → Int) (l : List α)
    (h : l.Sorted (fun a b => key b ≤ key a)) : sortDesc key l = l := by
  induction l with
  | nil => rfl
  | cons x xs ih =>
    rw [List.sorted_cons] at h
    simp only [sortDesc, ih h.2]
    exact insertDesc_of_head_le key x xs h.1

lemma sortDesc_idem {α : Type} (key : α → Int) (l : List α) :
    sortDesc key (sortDesc key l) = sortDesc key l :=
  sortDesc_of_sorted key _ (sortDesc_sorted key l)

lemma sort_phase_date (l : List FinancialRecord) :
    sort_phase "date" l = sortDesc (fun x => x.date) l := rfl

lemma sort_phase_revenue (l : List FinancialRecord) :
    sort_phase "revenue" l = sortDesc (fun x => x.revenue) l := rfl

lemma sort_phase_netIncome (l : List FinancialRecord) :
    sort_phase "netIncome" l = sortDesc (fun x => x.netIncome) l := rfl

lemma sort_phase_perm (sort_by : String) (l : List FinancialRecord) :
    (sort_phase sort_by l).Perm l := by
  unfold sort_phase
  split_ifs <;> first | exact sortDesc_perm _ l | exact List.Perm.refl l

lemma filter_data_ext (data : List FinancialRecord)
    {s e mr xr mn xn s' e' mr' xr' mn' xn' : Option Int}
    (h : ∀ x, keepItem s e mr xr mn xn x = keepItem s' e' mr' xr' mn' xn' x) :
    filter_data data s e mr xr mn xn = filter_data data s' e' mr' xr' mn' xn' := by
  rw [filter_data_eq_filter, filter_data_eq_filter]
  exact congrArg (fun p => List.filter p data) (funext h)

lemma mem_filter_data (x : FinancialRecord) (data : List FinancialRecord)
    (s e mr xr mn xn : Option Int) :
    x ∈ filter_data data s e mr xr mn xn ↔
      x ∈ data ∧ keepItem s e mr xr mn xn x = true := by
  rw [filter_data_eq_filter]
  exact List.mem_filter

lemma filter_data_eq_self (data : List FinancialRecord)
    (s e mr xr mn xn : Option Int)
    (h : ∀ x ∈ data, keepItem s e mr xr mn xn x = true) :
    filter_data data s e mr xr mn xn = data := by
  rw [filter_data_eq_filter]
  exact List.filter_eq_self.2 h

/-- Claim C1: `filter_data` retains a record iff every present, non-zero
bound holds as an inclusive comparison (`date ≥ startDate`, `date ≤ endDate`,
`revenue ≥ minRevenue`, `revenue ≤ maxRevenue`, `netIncome ≥ minNetIncome`,
`netIncome ≤ maxNetIncome`); at the boundary, a record with
`date = startDate` is retained and one with `date = startDate - 1` is
excluded (for a non-zero `startDate`). -/
theorem filter_data_retains_iff :
    (∀ (data : List FinancialRecord) (s e mr xr mn xn : Option Int),
      filter_data data s e mr xr mn xn =
        data.filter (satisfiesBounds s e mr xr mn xn)) ∧
    (∀ (s : Int) (x : FinancialRecord), s ≠ 0 →
      (x.date = s → filter_data [x] (some s) none none none none none = [x]) ∧
      (x.date = s - 1 →
        filter_data [x] (some s) none none none none none = [])) := by
  constructor
  · intro data s e mr xr mn xn
    rw [filter_data_eq_filter]
    exact congrArg (fun p => List.filter p data)
      (funext (keepItem_eq_satisfiesBounds s e mr xr mn xn))
  · intro s x hs
    constructor
    · intro hd
      have h1 : keepItem (some s) none none none none none x = true := by
        simp [keepItem, continueLB, continueUB, hd]
      simp [filter_data, h1]
    · intro hd
      have h1 : continueLB (some s) x.date = true := by
        rw [hd]
        simp only [continueLB, Bool.and_eq_true, bne_iff_ne, Ne,
          decide_eq_true_eq]
        exact ⟨hs, by omega⟩
      have h2 : keepItem (some s) none none none none none x = false := by
        simp [keepItem, h1]
      simp [filter_data, h2]

/-- Witness for C1: with `startDate = 5`, a record dated 5 is retained and a
record dated 4 is excluded. -/
theorem filter_data_retains_iff_witness :
    filter_data [⟨5, 1, 1, []⟩] (some 5) none none none none none =
        [⟨5, 1, 1, []⟩] ∧
    filter_data [⟨4, 1, 1, []⟩] (some 5) none none none none none = [] :=
  ⟨(filter_data_retains_iff.2 5 ⟨5, 1, 1, []⟩ (by decide)).1 rfl,
   (filter_data_retains_iff.2 5 ⟨4, 1, 1, []⟩ (by decide)).2 (by decide)⟩

/-- Claim C3: a bound explicitly set to zero is not enforced — in each of the
six positions, passing `some 0` yields exactly the same filtered list as
passing `none`. -/
theorem zero_bound_not_enforced (data : List FinancialRecord)
    (b1 b2 b3 b4 b5 : Option Int) :
    filter_data data (some 0) b1 b2 b3 b4 b5 =
        filter_data data none b1 b2 b3 b4 b5 ∧
    filter_data data b1 (some 0) b2 b3 b4 b5 =
        filter_data data b1 none b2 b3 b4 b5 ∧
    filter_data data b1 b2 (some 0) b3 b4 b5 =
        filter_data data b1 b2 none b3 b4 b5 ∧
    filter_data data b1 b2 b3 (some 0) b4 b5 =
        filter_data data b1 b2 b3 none b4 b5 ∧
    filter_data data b1 b2 b3 b4 (some 0) b5 =
        filter_data data b1 b2 b3 b4 none b5 ∧
    filter_data data b1 b2 b3 b4 b5 (some 0) =
        filter_data data b1 b2 b3 b4 b5 none := by
  refine ⟨?_, ?_, ?_, ?_, ?_, ?_⟩ <;>
    · apply filter_data_ext
      intro x
      simp [keepItem, continueLB, continueUB]

/-- Claim C2: for `sortBy` equal to `"date"`, `"revenue"`, or `"netIncome"`,
the sort phase returns the filtered list in descending order of that field,
as a stable permutation: records with equal sort-field values keep their
relative order (witnessed by filtering on any fixed field value). -/
theorem sort_phase_sorted_and_stable (l : List FinancialRecord) :
    ((sort_phase "date" l).Sorted (fun a b => b.date ≤ a.date) ∧
      (sort_phase "date" l).Perm l ∧
      ∀ v : Int, (sort_phase "date" l).filter (fun x => x.date == v) =
        l.filter (fun x => x.date == v)) ∧
    ((sort_phase "revenue" l).Sorted (fun a b => b.revenue ≤ a.revenue) ∧
      (sort_phase "revenue" l).Perm l ∧
      ∀ v : Int, (sort_phase "revenue" l).filter (fun x => x.revenue == v) =
        l.filter (fun x => x.revenue == v)) ∧
    ((sort_phase "netIncome" l).Sorted (fun a b => b.netIncome ≤ a.netIncome) ∧
      (sort_phase "netIncome" l).Perm l ∧
      ∀ v : Int, (sort_phase "netIncome" l).filter
          (fun x => x.netIncome == v) =
        l.filter (fun x => x.netIncome == v)) := by
  refine ⟨⟨?_, ?_, ?_⟩, ⟨?_, ?_, ?_⟩, ⟨?_, ?_, ?_⟩⟩
  · rw [sort_phase_date]; exact sortDesc_sorted _ l
  · rw [sort_phase_date]; exact sortDesc_perm _ l
  · intro v; rw [sort_phase_date]; exact sortDesc_stable _ l v
  · rw [sort_phase_revenue]; exact sortDesc_sorted _ l
  · rw [sort_phase_revenue]; exact sortDesc_perm _ l
  · intro v; rw [sort_phase_revenue]; exact sortDesc_stable _ l v
  · rw [sort_phase_netIncome]; exact sortDesc_sorted _ l
  · rw [sort_phase_netIncome]; exact sortDesc_perm _ l
  · intro v; rw [sort_phase_netIncome]; exact sortDesc_stable _ l v

/-- Claim C4: whenever the upstream fetch fails, the handler returns status
500 with the error description as body and no record data; filtering and
sorting are not reached. -/
theorem upstream_failure_returns_500 (e : String)
    (p1 p2 p3 p4 p5 p6 : QueryParam) (sb : Option String) :
    fetch_data (.error e) p1 p2 p3 p4 p5 p6 sb = (500, .err e) := rfl

/-- Claim C5 counterexample: a request whose `startDate` value cannot be
parsed as an integer is answered with status 200 (the full record list),
not with a 4xx client error — Flask's typed `args.get` silently drops the
malformed value. -/
theorem malformed_param_returns_200 :
    fetch_data (.ok [rec2023]) (.malformed "abc") .absent .absent .absent
        .absent .absent none = (200, .ok [rec2023]) ∧
      ¬(400 ≤ (200 : Nat) ∧ (200 : Nat) < 500) := by
  constructor
  · rfl
  · decide

/-- Claim C5 amended: a numeric query parameter whose value cannot be parsed
as its expected type is silently treated as absent — in each of the six
positions the handler's response is identical to the response with that
parameter absent (so the request is accepted, not rejected with a 4xx). -/
theorem malformed_param_treated_as_absent (raw : String)
    (u : Except String (List FinancialRecord)) (p2 p3 p4 p5 p6 : QueryParam)
    (sb : Option String) :
    fetch_data u (.malformed raw) p2 p3 p4 p5 p6 sb =
        fetch_data u .absent p2 p3 p4 p5 p6 sb ∧
    fetch_data u p2 (.malformed raw) p3 p4 p5 p6 sb =
        fetch_data u p2 .absent p3 p4 p5 p6 sb ∧
    fetch_data u p2 p3 (.malformed raw) p4 p5 p6 sb =
        fetch_data u p2 p3 .absent p4 p5 p6 sb ∧
    fetch_data u p2 p3 p4 (.malformed raw) p5 p6 sb =
        fetch_data u p2 p3 p4 .absent p5 p6 sb ∧
    fetch_data u p2 p3 p4 p5 (.malformed raw) p6 sb =
        fetch_data u p2 p3 p4 p5 .absent p6 sb ∧
    fetch_data u p2 p3 p4 p5 p6 (.malformed raw) sb =
        fetch_data u p2 p3 p4 p5 p6 .absent sb := by
  cases u <;> exact ⟨rfl, rfl, rfl, rfl, rfl, rfl⟩

/-- Claim C7: for any `sortBy` value other than the three recognised keys,
the handler returns exactly the filtered list, which is an order-preserving
subsequence of the upstream data. -/
theorem unrecognized_sort_key_preserves_order (data : List FinancialRecord)
    (p1 p2 p3 p4 p5 p6 : QueryParam) (sb : String)
    (h1 : sb ≠ "date") (h2 : sb ≠ "revenue") (h3 : sb ≠ "netIncome") :
    fetch_data (.ok data) p1 p2 p3 p4 p5 p6 (some sb) =
      (200, .ok (filter_data data p1.get p2.get p3.get p4.get p5.get
        p6.get)) ∧
    List.Sublist (filter_data data p1.get p2.get p3.get p4.get p5.get p6.get)
      data := by
  constructor
  · simp [fetch_data, sort_phase, h1, h2, h3]
  · rw [filter_data_eq_filter]
    exact List.filter_sublist data

/-- Witness for C7 at `sortBy = "none"` on a one-record list. -/
theorem unrecognized_sort_key_preserves_order_witness :
    fetch_data (.ok [rec2023]) .absent .absent .absent .absent .absent .absent
        (some "none") =
      (200, .ok (filter_data [rec2023] none none none none none none)) ∧
    List.Sublist (filter_data [rec2023] none none none none none none)
      [rec2023] :=
  unrecognized_sort_key_preserves_order [rec2023] .absent .absent .absent
    .absent .absent .absent "none" (by decide) (by decide) (by decide)

/-- Claim C8: an absent `sortBy` defaults to `"date"`; with the spec's
two-record upstream data and no query parameters, the response is the
records in descending date order, in either upstream order. -/
theorem default_sort_key_is_date :
    (∀ (u : Except String (List FinancialRecord)) (p1 p2 p3 p4 p5 p6 :
        QueryParam),
      fetch_data u p1 p2 p3 p4 p5 p6 none =
        fetch_data u p1 p2 p3 p4 p5 p6 (some "date")) ∧
    fetch_data (.ok [rec2023, rec2022]) .absent .absent .absent .absent
        .absent .absent none = (200, .ok [rec2023, rec2022]) ∧
    fetch_data (.ok [rec2022, rec2023]) .absent .absent .absent .absent
        .absent .absent none = (200, .ok [rec2023, rec2022]) := by
  refine ⟨?_, ?_, ?_⟩
  · intro u p1 p2 p3 p4 p5 p6
    cases u <;> rfl
  · rfl
  · rfl

/-- Claim C9: the whole transform (filter, then sort) is idempotent: applying
it to its own output with the same bounds and sort key returns that output
unchanged. -/
theorem transform_idempotent (s e mr xr mn xn : Option Int) (sb : String)
    (data : List FinancialRecord) :
    transform s e mr xr mn xn sb (transform s e mr xr mn xn sb data) =
      transform s e mr xr mn xn sb data := by
  unfold transform
  have hkeep : ∀ x ∈ sort_phase sb (filter_data data s e mr xr mn xn),
      keepItem s e mr xr mn xn x = true := by
    intro x hx
    have hxf : x ∈ filter_data data s e mr xr mn xn :=
      (sort_phase_perm sb _).mem_iff.1 hx
    exact ((mem_filter_data x data s e mr xr mn xn).1 hxf).2
  rw [filter_data_eq_self _ _ _ _ _ _ _ hkeep]
  unfold sort_phase
  split_ifs <;> first | apply sortDesc_idem | rfl

/-- Claim C10: the transform never alters records: the filtered list is a
subsequence of the input in input order, the final output is a permutation of
the filtered list, and every output element is one of the input records,
all fields (including the untouched `other` fields) intact. -/
theorem transform_no_mutation (data : List FinancialRecord)
    (s e mr xr mn xn : Option Int) (sb : String) :
    List.Sublist (filter_data data s e mr xr mn xn) data ∧
    (transform s e mr xr mn xn sb data).Perm
      (filter_data data s e mr xr mn xn) ∧
    ∀ x ∈ transform s e mr xr mn xn sb data, x ∈ data := by
  refine ⟨?_, ?_, ?_⟩
  · rw [filter_data_eq_filter]
    exact List.filter_sublist data
  · exact sort_phase_perm sb _
  · intro x hx
    have hxf : x ∈ filter_data data s e mr xr mn xn :=
      (sort_phase_perm sb _).mem_iff.1 hx
    have hsub : List.Sublist (filter_data data s e mr xr mn xn) data := by
      rw [filter_data_eq_filter]
      exact List.filter_sublist data
    exact hsub.subset hxf

/-- A raw upstream JSON record in which any of the three fields may be
absent; used to study the transform on malformed upstream data. -/
structure JsonRecord where
  date? : Option Int
  revenue? : Option Int
  netIncome? : Option Int
deriving DecidableEq, Repr

/-- Python subscript access `item["field"]`: returns the value, or raises
`KeyError` when the key is absent. -/
def getField : Option Int → Except String Int
  | some v => .ok v
  | none => .error "KeyError"

/-- Fallible version of a lower-bound guard: the field is accessed (and may
raise) only when the bound is truthy, exactly as Python's short-circuit
`bound and item[f] < bound`. -/
def continueLBJ (b : Option Int) (f : Option Int) : Except String Bool :=
  if truthy b then (getField f).map (fun v => decide (v < b.getD 0))
  else .ok false

/-- Fallible version of an upper-bound guard, mirroring
`bound and item[f] > bound`. -/
def continueUBJ (b : Option Int) (f : Option Int) : Except String Bool :=
  if truthy b then (getField f).map (fun v => decide (v > b.getD 0))
  else .ok false

/-- The loop body of `filter_data` on a raw record: the six guards run in
source order, a firing guard `continue`s (keep = false), and a raised
`KeyError` aborts the whole request. -/
def keepItemJ (s e mr xr mn xn : Option Int) (x : JsonRecord) :
    Except String Bool := do
  if ← continueLBJ s x.date? then return false
  if ← continueUBJ e x.date? then return false
  if ← continueLBJ mr x.revenue? then return false
  if ← continueUBJ xr x.revenue? then return false
  if ← continueLBJ mn x.netIncome? then return false
  if ← continueUBJ xn x.netIncome? then return false
  return true

/-- `filter_data` on raw records: items are processed in order and a raised
`KeyError` propagates out of the loop. -/
def filter_dataJ (data : List JsonRecord) (s e mr xr mn xn : Option Int) :
    Except String (List JsonRecord) :=
  match data with
  | [] => .ok []
  | item :: rest => do
    let keep ← keepItemJ s e mr xr mn xn item
    let tail ← filter_dataJ rest s e mr xr mn xn
    if keep then return item :: tail else return tail

/-- Key extraction pass of Python's `sorted(l, key=...)`: the key function
is applied to every element (in order) before sorting, so a missing field
raises before any reordering. -/
def decorate (key : JsonRecord → Option Int) :
    List JsonRecord → Except String (List (Int × JsonRecord))
  | [] => .ok []
  | x :: xs => do
    let k ← getField (key x)
    let rest ← decorate key xs
    return (k, x) :: rest

/-- `sorted(l, key=lambda x: x[field], reverse=True)` on raw records:
extract every key (possibly raising `KeyError`), then stable-sort
descending on the extracted keys. -/
def sortDescJ (key : JsonRecord → Option Int) (l : List JsonRecord) :
    Except String (List JsonRecord) :=
  (decorate key l).map
    (fun pairs => (sortDesc (fun p => p.fst) pairs).map Prod.snd)

/-- The handler's sort dispatch on raw records. -/
def sort_phaseJ (sort_by : String) (l : List JsonRecord) :
    Except String (List JsonRecord) :=
  if sort_by = "date" then sortDescJ (fun x => x.date?) l
  else if sort_by = "revenue" then sortDescJ (fun x => x.revenue?) l
  else if sort_by = "netIncome" then sortDescJ (fun x => x.netIncome?) l
  else .ok l

/-- The whole transform (filter, then sort) on raw records that may lack
fields. -/
def transformJ (s e mr xr mn xn : Option Int) (sort_by : String)
    (data : List JsonRecord) : Except String (List JsonRecord) := do
  let filtered ← filter_dataJ data s e mr xr mn xn
  sort_phaseJ sort_by filtered

/-- Claim C6 counterexample: a record lacking all three fields passes
through the whole transform without error when no bound is enforced and the
sort key is unrecognised — the filter and sort never access the missing
fields, so they do not fail. -/
theorem missing_fields_no_failure :
    transformJ none none none none none none "none" [⟨none, none, none⟩] =
      .ok [⟨none, none, none⟩] := rfl

lemma exc_bind_ok {α β : Type} (a : α) (f : α → Except String β) :
    (Except.ok a >>= f) = f a := rfl

lemma exc_bind_err {α β : Type} (m : String) (f : α → Except String β) :
    ((Except.error m : Except String α) >>= f) = .error m := rfl

lemma keepItemJ_date_missing (s e mr xr mn xn : Option Int) (x : JsonRecord)
    (hs : truthy s = true) (hx : x.date? = none) :
    keepItemJ s e mr xr mn xn x = .error "KeyError" := by
  have h1 : continueLBJ s x.date? = .error "KeyError" := by
    rw [hx]
    simp [continueLBJ, hs, getField, Except.map]
  unfold keepItemJ
  rw [h1]
  rfl

lemma filter_dataJ_err_of_date_missing (data : List JsonRecord)
    (s e mr xr mn xn : Option Int) (hs : truthy s = true)
    (hex : ∃ x ∈ data, x.date? = none) :
    ∃ msg, filter_dataJ data s e mr xr mn xn = .error msg := by
  induction data with
  | nil =>
    obtain ⟨x, hx, _⟩ := hex
    exact absurd hx (List.not_mem_nil x)
  | cons y rest ih =>
    obtain ⟨x, hx, hxd⟩ := hex
    rcases List.mem_cons.1 hx with hxy | hxr
    · subst hxy
      refine ⟨"KeyError", ?_⟩
      unfold filter_dataJ
      rw [keepItemJ_date_missing s e mr xr mn xn x hs hxd]
      rfl
    · obtain ⟨msg, hmsg⟩ := ih ⟨x, hxr, hxd⟩
      cases hk : keepItemJ s e mr xr mn xn y with
      | error m =>
        refine ⟨m, ?_⟩
        unfold filter_dataJ
        rw [hk]
        rfl
      | ok b =>
        refine ⟨msg, ?_⟩
        unfold filter_dataJ
        simp only [hk, exc_bind_ok, hmsg, exc_bind_err]

lemma decorate_err_of_key_missing (key : JsonRecord → Option Int)
    (l : List JsonRecord) (hex : ∃ x ∈ l, key x = none) :
    ∃ msg, decorate key l = .error msg := by
  induction l with
  | nil =>
    obtain ⟨x, hx, _⟩ := hex
    exact absurd hx (List.not_mem_nil x)
  | cons y ys ih =>
    obtain ⟨x, hx, hxk⟩ := hex
    rcases List.mem_cons.1 hx with hxy | hxr
    · subst hxy
      refine ⟨"KeyError", ?_⟩
      unfold decorate
      rw [hxk]
      rfl
    · cases hk : getField (key y) with
      | error m =>
        refine ⟨m, ?_⟩
        unfold decorate
        rw [hk]
        rfl
      | ok v =>
        obtain ⟨msg, hmsg⟩ := ih ⟨x, hxr, hxk⟩
        refine ⟨msg, ?_⟩
        unfold decorate
        simp only [hk, exc_bind_ok, hmsg, exc_bind_err]

lemma sortDescJ_err_of_key_missing (key : JsonRecord → Option Int)
    (l : List JsonRecord) (hex : ∃ x ∈ l, key x = none) :
    ∃ msg, sortDescJ key l = .error msg := by
  obtain ⟨msg, hmsg⟩ := decorate_err_of_key_missing key l hex
  refine ⟨msg, ?_⟩
  unfold sortDescJ
  rw [hmsg]
  rfl

lemma keepItemJ_no_bounds (x : JsonRecord) :
    keepItemJ none none none none none none x = .ok true := rfl

lemma filter_dataJ_no_bounds (data : List JsonRecord) :
    filter_dataJ data none none none none none none = .ok data := by
  induction data with
  | nil => rfl
  | cons x rest ih =>
    unfold filter_dataJ
    simp only [keepItemJ_no_bounds, exc_bind_ok, ih]
    rfl

/-- Claim C6 amended: a missing field causes a failure exactly when the
transform actually accesses it: filtering raises when `startDate` is
enforced (truthy) and some record lacks `date`; sorting by a recognised key
raises when some record lacks that key field (the key is extracted from
every record); but with no enforced bound the filter accesses no field and
returns every record, missing fields included, unchanged. -/
theorem missing_field_failure_characterization :
    (∀ (data : List JsonRecord) (s e mr xr mn xn : Option Int),
      truthy s = true → (∃ x ∈ data, x.date? = none) →
      ∃ msg, filter_dataJ data s e mr xr mn xn = Except.error msg) ∧
    (∀ (key : JsonRecord → Option Int) (l : List JsonRecord),
      (∃ x ∈ l, key x = none) → ∃ msg, sortDescJ key l = Except.error msg) ∧
    (∀ data : List JsonRecord,
      filter_dataJ data none none none none none none = Except.ok data) :=
  ⟨fun data s e mr xr mn xn hs hex =>
      filter_dataJ_err_of_date_missing data s e mr xr mn xn hs hex,
   fun key l hex => sortDescJ_err_of_key_missing key l hex,
   fun data => filter_dataJ_no_bounds data⟩

/-- Witness for the amended C6: with `startDate = 5`, filtering a record
lacking `date` raises; sorting that record by `date` raises; with no bounds
the record passes through. -/
theorem missing_field_failure_characterization_witness :
    (∃ msg, filter_dataJ [⟨none, some 1, some 1⟩] (some 5) none none none
        none none = Except.error msg) ∧
    (∃ msg, sortDescJ (fun x => x.date?) [⟨none, some 1, some 1⟩] =
        Except.error msg) ∧
    filter_dataJ [⟨none, some 1, some 1⟩] none none none none none none =
      Except.ok [⟨none, some 1, some 1⟩] :=
  ⟨missing_field_failure_characterization.1 [⟨none, some 1, some 1⟩] (some 5)
      none none none none none rfl ⟨⟨none, some 1, some 1⟩, by simp, rfl⟩,
   missing_field_failure_characterization.2.1 (fun x => x.date?)
      [⟨none, some 1, some 1⟩] ⟨⟨none, some 1, some 1⟩, by simp, rfl⟩,
   missing_field_failure_characterization.2.2 [⟨none, some 1, some 1⟩]⟩
